import Mathlib

/-!
Shallow embedding of the HT repository: two implementations of one batch ETL
task. `apache_beam_framework_solution.py` joins two CSV datasets on
`counter_party`, aggregates over seven grouping-key combinations using
composite string keys, and appends the rows to one CSV file;
`pandas_framework_solution.py` does the same with a dataframe merge and
groupby. The Beam pipeline is modelled at the level of Python dictionaries
(`DictRow`), with `Option` results standing for uncaught Python exceptions;
the pandas pipeline is modelled over typed rows, mirroring the dtypes that
`read_csv` produces.
-/

namespace HT

/-- Last-binding-wins association lookup: models lookup in a Python dict that
was built by a recorded sequence of key assignments. -/
def lookupLast {β : Type} : List (String × β) → String → Option β
  | [], _ => none
  | p :: rest, key =>
    match lookupLast rest key with
    | some v => some v
    | none => if p.1 = key then some p.2 else none

/-- First-match association lookup (used for the pandas grouped columns). -/
def lookupFirst {α β : Type} [DecidableEq α] : List (α × β) → α → Option β
  | [], _ => none
  | p :: rest, key => if p.1 = key then some p.2 else lookupFirst rest key

/-- Sequence a fallible map over a list; a `none` anywhere models an uncaught
Python exception aborting the traversal. -/
def optMapM {α β : Type} (f : α → Option β) : List α → Option (List β)
  | [] => some []
  | a :: rest => (f a).bind fun b => (optMapM f rest).map fun bs => b :: bs

/-- Values grouped under one key of a keyed list. -/
def valuesAt {κ α : Type} [DecidableEq κ] (l : List (κ × α)) (k : κ) : List α :=
  (l.filter fun p => p.1 = k).map Prod.snd

/-- Deterministic model of grouping a keyed collection by key: one group per
distinct key. The frameworks do not fix a key order, so the model uses
`List.dedup` order throughout. -/
def groupPairs {κ α : Type} [DecidableEq κ] (l : List (κ × α)) : List (κ × List α) :=
  (l.map Prod.fst).dedup.map fun k => (k, valuesAt l k)

/-- Decimal digit run parsed to a natural number; `none` when the run is
empty or contains a non-digit. -/
def digitsToNat (l : List Char) : Option Nat :=
  if !l.isEmpty && l.all Char.isDigit then
    some (l.foldl (fun a c => a * 10 + (c.toNat - 48)) 0)
  else none

/-- Model of Python `int(s)` on the string forms this pipeline meets: an
optional sign followed by decimal digits. `none` models the
`ValueError`/`TypeError` of a malformed or missing value (surrounding
whitespace and underscore separators are not modelled). -/
def pyInt (s : String) : Option Int :=
  match s.data with
  | '-' :: rest => (digitsToNat rest).map fun n => -(n : Int)
  | '+' :: rest => (digitsToNat rest).map fun n => (n : Int)
  | l => (digitsToNat l).map fun n => (n : Int)

/-- Character-level model of Python `key.split("-")`. -/
def splitOnDashChars : List Char → List (List Char)
  | [] => [[]]
  | c :: rest =>
    if c = '-' then [] :: splitOnDashChars rest
    else
      match splitOnDashChars rest with
      | [] => [[c]]
      | h :: t => (c :: h) :: t

/-- Character-level model of Python `"-".join(...)`. -/
def joinDashChars : List (List Char) → List Char
  | [] => []
  | [x] => x
  | x :: xs => x ++ '-' :: joinDashChars xs

/-- Python `key.split("-")` on strings. -/
def pySplitDash (s : String) : List String :=
  (splitOnDashChars s.data).map String.mk

/-- Python `"-".join(xs)` on strings. -/
def pyJoinDash (xs : List String) : String :=
  String.mk (joinDashChars (xs.map String.data))

/-- Minimal-quoting rule of the csv module: a field is quoted when it holds
the delimiter, the quote character or a line break, with quotes doubled. -/
def csvField (s : String) : String :=
  if s.data.any (fun c => c == ',' || c == '"' || c == '\n' || c == '\r') then
    String.mk ('"' :: ((s.data.flatMap fun c => if c = '"' then ['"', '"'] else [c]) ++ ['"']))
  else s

/-- Comma-separated rendering of one CSV line. -/
def joinComma : List String → String
  | [] => ""
  | [x] => x
  | x :: xs => x ++ "," ++ joinComma xs

/-- Row produced by `csv.DictReader`: the header fields bound to optional
values (`none` models the Python `None` filled in for a missing trailing
field), and `rest` holding the extra values a too-long row stores under the
reader's rest key. -/
structure DictRow where
  fields : List (String × Option String)
  rest : List String
deriving DecidableEq

/-- Python `row[k]`: `none` models the `KeyError` of a missing key, while a
key bound to `None` yields `some none`. -/
def dgetK (r : DictRow) (k : String) : Option (Option String) :=
  lookupLast r.fields k

/-- Lookup collapsing the two failure modes met by `int(row[k])` and by
`"-".join([...])`: a missing key (`KeyError`) and a `None` value
(`TypeError`). -/
def dget (r : DictRow) (k : String) : Option String :=
  (lookupLast r.fields k).bind id

/-- Python dict assignment `r[k] = v`, modelled as an appended binding;
`lookupLast` realises last-assignment-wins. -/
def dictSet (r : DictRow) (k : String) (v : Option String) : DictRow :=
  ⟨r.fields ++ [(k, v)], r.rest⟩

/-- Modelled from `csv.DictReader`, as used by `ReadCSVFile.process`: the
row's values are zipped against the header, missing trailing fields become
`None`, extra values are collected under the rest key, and no error is ever
raised for a field-count mismatch. -/
def dictReadRow (header : List String) (row : List String) : DictRow :=
  ⟨header.zip (row.map some ++ List.replicate (header.length - row.length) none),
   row.drop header.length⟩

/-- `ReadCSVFile.process`: the first row is the header, blank rows are
skipped by the reader, and every other row becomes a `DictRow`. -/
def readCSVFile : List (List String) → List DictRow
  | [] => []
  | header :: rows => (rows.filter fun r => !r.isEmpty).map (dictReadRow header)

/-- Keying stage `beam.Map(lambda cols: (cols["counter_party"], cols))`;
`none` models the `KeyError` raised when the column is absent. -/
def mapToKV (rows : List DictRow) : Option (List (Option String × DictRow)) :=
  optMapM (fun r => (dgetK r "counter_party").map fun k => (k, r)) rows

/-- Deterministic model of `beam.CoGroupByKey` over the two keyed datasets
(the runner's key order is unspecified; the model uses `List.dedup` order). -/
def coGroup (kv1 kv2 : List (Option String × DictRow)) :
    List (Option String × List DictRow × List DictRow) :=
  ((kv1.map Prod.fst) ++ (kv2.map Prod.fst)).dedup.map fun k =>
    (k, valuesAt kv1 k, valuesAt kv2 k)

/-- `ReshapeData.process` on one co-grouped key: each dataset-1 entry is
copied and given the tier of `dataset2[0]`. When dataset-1 is non-empty and
dataset-2 is empty, the subscript `dataset2[0]` raises `IndexError` (`none`);
a first dataset-2 record without a `tier` key raises `KeyError`. -/
def reshapeGroup (d1 d2 : List DictRow) : Option (List DictRow) :=
  match d1 with
  | [] => some []
  | _ =>
    match d2 with
    | [] => none
    | b :: _ => (dgetK b "tier").map fun t => d1.map fun e => dictSet e "tier" t

/-- The merged (joined) collection: key both datasets, co-group on
`counter_party`, and reshape every group. -/
def mergedData (d1 d2 : List DictRow) : Option (List DictRow) := do
  let kv1 ← mapToKV d1
  let kv2 ← mapToKV d2
  let parts ← optMapM (fun g => reshapeGroup g.2.1 g.2.2) (coGroup kv1 kv2)
  some parts.flatten

/-- `CompositeKeyFn.process`: the element's values at the grouping keys are
joined with `"-"`; `none` models the `KeyError` of a missing key and the
`TypeError` of joining a `None` value. -/
def compositeKey (gk : List String) (e : DictRow) : Option String :=
  (optMapM (dget e) gk).map pyJoinDash

/-- Aggregate tuple yielded by `ExtractAndSum.process`. -/
structure Agg where
  max_rating : Int
  sum_arap : Int
  sum_accr : Int
  total : Nat
deriving DecidableEq

/-- Parse of `int(x['rating'])`. -/
def ratingInt (x : DictRow) : Option Int := (dget x "rating").bind pyInt

/-- Parse of `int(x['value'])`. -/
def valueInt (x : DictRow) : Option Int := (dget x "value").bind pyInt

/-- Python `max` over a sequence of ints; `none` models the `ValueError`
raised on an empty sequence. -/
def listMax : List Int → Option Int
  | [] => none
  | x :: xs => some (xs.foldl max x)

/-- Conditional sum `sum(int(x['value']) for x in data if x['status'] == st)`:
the status of every element is read (a missing key raises), and the value is
parsed only for the matching elements. -/
def sumStatus (st : String) : List DictRow → Option Int
  | [] => some 0
  | x :: xs =>
    match dgetK x "status" with
    | none => none
    | some s =>
      if s = some st then
        (valueInt x).bind fun v => (sumStatus st xs).map fun r => v + r
      else sumStatus st xs

/-- `ExtractAndSum.process`. -/
def extractAndSum (data : List DictRow) : Option Agg := do
  let rs ← optMapM ratingInt data
  let m ← listMax rs
  let sa ← sumStatus "ARAP" data
  let sc ← sumStatus "ACCR" data
  some ⟨m, sa, sc, data.length⟩

/-- Cell of an output dictionary: the source stores strings in the grouped
columns and Python ints everywhere else (back-filled totals and aggregates). -/
inductive Cell where
  | str : String → Cell
  | int : Int → Cell
deriving DecidableEq

/-- The `aggr_columns` list of `PrepareOutputData.process`. -/
def aggrColumns : List String := ["legal_entity", "counter_party", "tier"]

/-- The fixed six-column output header of `SaveOutputToCsv.process`. -/
def outHeaders : List String :=
  ["legal_entity", "counter_party", "tier", "max(rating by counterparty)",
   "sum(value where status=ARAP)", "sum(value where status=ACCR)"]

/-- `PrepareOutputData.process`: split the composite key, bind each grouping
key to the split component at its index, back-fill the absent grouped
columns with `total`, then attach the three aggregate columns. `none` models
the `IndexError` raised when the split yields fewer parts than there are
grouping keys. -/
def prepareOutputData (gk : List String) (key : String) (agg : Agg) :
    Option (List (String × Cell)) :=
  let split := pySplitDash key
  if gk.length ≤ split.length then
    let assigned := (gk.zip split).map fun p => (p.1, Cell.str p.2)
    let filled := aggrColumns.foldl
      (fun acc c =>
        if (lookupLast acc c).isSome then acc
        else acc ++ [(c, Cell.int (agg.total : Int))])
      assigned
    some (filled ++
      [("max(rating by counterparty)", Cell.int agg.max_rating),
       ("sum(value where status=ARAP)", Cell.int agg.sum_arap),
       ("sum(value where status=ACCR)", Cell.int agg.sum_accr)])
  else none

/-- Pipeline stages of one grouping-key run from composite keying through
`ExtractAndSum`. -/
def aggregateStage (gk : List String) (merged : List DictRow) :
    Option (List (String × Agg)) := do
  let keyed ← optMapM (fun e => (compositeKey gk e).map fun k => (k, e)) merged
  optMapM (fun g => (extractAndSum g.2).map fun a => (g.1, a)) (groupPairs keyed)

/-- One full grouping-key run: aggregation followed by output preparation. -/
def runGroupKey (gk : List String) (merged : List DictRow) :
    Option (List (List (String × Cell))) := do
  let aggs ← aggregateStage gk merged
  optMapM (fun p => prepareOutputData gk p.1 p.2) aggs

/-- Rendering of one cell by `csv.DictWriter`. -/
def cellField : Cell → String
  | .str s => csvField s
  | .int n => csvField (toString n)

/-- The header line written by `writer.writeheader()`. -/
def headerLine : String := joinComma (outHeaders.map csvField)

/-- Row written by `csv.DictWriter.writerow`: the six header columns are
looked up in the prepared dictionary (`none` models `KeyError`). -/
def rowLine (row : List (String × Cell)) : Option String :=
  (optMapM (lookupLast row) outHeaders).map fun cells =>
    joinComma (cells.map cellField)

/-- `SaveOutputToCsv.process` on the file modelled as its list of lines: the
rows are appended, with the header line written first exactly when the file
is empty (`file.tell() == 0` in append mode). -/
def saveOutputToCsv (file : List String) (rows : List String) : List String :=
  file ++ (if file.isEmpty then [headerLine] else []) ++ rows

/-- The `group_by_columns` list of the Beam solution, in source order. -/
def beamGroupByColumns : List (List String) :=
  [["tier"], ["counter_party"], ["legal_entity"],
   ["legal_entity", "counter_party"], ["counter_party", "tier"],
   ["tier", "legal_entity"],
   ["legal_entity", "counter_party", "tier"]]

/-- The grouping-key runs executed in enumeration order, each appending its
rows to the shared output file. The Beam runner may interleave the seven
branches; the model fixes their enumeration order. -/
def runAllGroupKeys (merged : List DictRow) :
    List (List String) → List String → Option (List String)
  | [], file => some file
  | gk :: gks, file => do
    let rows ← runGroupKey gk merged
    let lines ← optMapM rowLine rows
    runAllGroupKeys merged gks (saveOutputToCsv file lines)

/-- The whole Beam pipeline on the two CSV files, each given as its list of
already-tokenised rows. -/
def beamMain (file1 file2 : List (List String)) : Option (List String) := do
  let merged ← mergedData (readCSVFile file1) (readCSVFile file2)
  runAllGroupKeys merged beamGroupByColumns []

/-- Well-formed dataset-1 CSV row (the five columns of `dataset1.csv`). -/
structure SrcA where
  counter_party : String
  legal_entity : String
  rating : String
  value : String
  status : String
deriving DecidableEq

/-- The dictionary `csv.DictReader` yields for a well-formed dataset-1 row. -/
def SrcA.toDict (a : SrcA) : DictRow :=
  ⟨[("counter_party", some a.counter_party), ("legal_entity", some a.legal_entity),
    ("rating", some a.rating), ("value", some a.value), ("status", some a.status)], []⟩

/-- Well-formed dataset-2 CSV row (the two columns of `dataset2.csv`). -/
structure SrcB where
  counter_party : String
  tier : String
deriving DecidableEq

/-- The dictionary `csv.DictReader` yields for a well-formed dataset-2 row. -/
def SrcB.toDict (b : SrcB) : DictRow :=
  ⟨[("counter_party", some b.counter_party), ("tier", some b.tier)], []⟩

/-- One of the three grouping attributes of the pandas solution. -/
inductive PAttr where
  | legal_entity : PAttr
  | counter_party : PAttr
  | tier : PAttr
deriving DecidableEq

/-- Typed dataset-1 row as `pd.read_csv("dataset1.csv")` loads it: `rating`
and `value` are parsed to integers at load time by the dataframe reader. -/
structure PRowA where
  counter_party : String
  legal_entity : String
  rating : Int
  value : Int
  status : String
deriving DecidableEq

/-- Typed dataset-2 row as `pd.read_csv("dataset2.csv")` loads it. -/
structure PRowB where
  counter_party : String
  tier : String
deriving DecidableEq

/-- Row of the merged dataframe `dataset1.merge(dataset2, on="counter_party")`. -/
structure PJoined where
  counter_party : String
  legal_entity : String
  rating : Int
  value : Int
  status : String
  tier : String
deriving DecidableEq

/-- Value of one grouping attribute of a merged row. -/
def PJoined.get (r : PJoined) : PAttr → String
  | .legal_entity => r.legal_entity
  | .counter_party => r.counter_party
  | .tier => r.tier

/-- The inner merge `dataset1.merge(dataset2, on="counter_party")`: one
output row per matching pair, left rows in order, each paired with every
matching right row in order. -/
def pandasMerge (d1 : List PRowA) (d2 : List PRowB) : List PJoined :=
  d1.flatMap fun a =>
    (d2.filter fun b => b.counter_party = a.counter_party).map fun b =>
      ⟨a.counter_party, a.legal_entity, a.rating, a.value, a.status, b.tier⟩

/-- Key of a merged row under one grouping-column list. -/
def keyOf (gk : List PAttr) (r : PJoined) : List String :=
  gk.map fun a => r.get a

/-- The partitions `df.groupby(group_column)` forms: one per distinct key
value, each holding the member rows (the dataframe library orders groups by
sorted key; no claim below depends on group order, and the model uses
`List.dedup` order). -/
def pandasGroups (df : List PJoined) (gk : List PAttr) :
    List (List String × List PJoined) :=
  (df.map (keyOf gk)).dedup.map fun k => (k, df.filter fun r => keyOf gk r = k)

/-- Output row of the pandas solution: the three grouped columns (strings
for grouping attributes, back-filled integer totals otherwise) and the three
integer aggregate columns. -/
structure OutRow where
  legal_entity : Cell
  counter_party : Cell
  tier : Cell
  max_rating : Int
  sum_arap : Int
  sum_accr : Int
deriving DecidableEq

/-- Grouped column of one output row of `custom_groupby_and_aggregate`: a
grouping attribute carries its key value; an absent attribute is back-filled
with the group's `total`. -/
def pcell (gk : List PAttr) (k : List String) (total : Int) (a : PAttr) : Cell :=
  match lookupFirst (gk.zip k) a with
  | some s => Cell.str s
  | none => Cell.int total

/-- Python `max` over the ratings of a group; groups formed by
`pandasGroups` are never empty, so the default of the empty case is never
produced by the pipeline. -/
def listMaxD : List Int → Int
  | [] => 0
  | x :: xs => xs.foldl max x

/-- Conditional sum `x[df["status"] == st].sum()` over one group. -/
def sumStatusP (st : String) (g : List PJoined) : Int :=
  ((g.filter fun r => r.status = st).map fun r => r.value).sum

/-- One aggregated output row of `custom_groupby_and_aggregate` for the
partition of key `k` with members `g`: `total` is the member count,
`max_rating` the maximum rating, and the two sums are over the members with
the matching status. -/
def mkOutRow (gk : List PAttr) (k : List String) (g : List PJoined) : OutRow :=
  { legal_entity := pcell gk k (g.length : Int) .legal_entity
    counter_party := pcell gk k (g.length : Int) .counter_party
    tier := pcell gk k (g.length : Int) .tier
    max_rating := listMaxD (g.map fun r => r.rating)
    sum_arap := sumStatusP "ARAP" g
    sum_accr := sumStatusP "ACCR" g }

/-- `custom_groupby_and_aggregate`: one output row per partition. -/
def customGroupbyAndAggregate (df : List PJoined) (gk : List PAttr) : List OutRow :=
  (pandasGroups df gk).map fun p => mkOutRow gk p.1 p.2

/-- The `group_by_columns` list of the pandas solution, in source order. -/
def pandasGroupByColumns : List (List PAttr) :=
  [[.legal_entity], [.counter_party], [.tier],
   [.legal_entity, .counter_party], [.counter_party, .tier],
   [.tier, .legal_entity],
   [.legal_entity, .counter_party, .tier]]

/-- The main loop of the pandas solution: the per-run results are appended
to the result dataframe in enumeration order. -/
def pandasMain (d1 : List PRowA) (d2 : List PRowB) : List OutRow :=
  pandasGroupByColumns.foldl
    (fun acc gk => acc ++ customGroupbyAndAggregate (pandasMerge d1 d2) gk) []

/-- Modelled from the spec: the GroupKey enumeration order that the spec
asserts for the rows of the output file. -/
def claimedGroupByOrder : List (List PAttr) :=
  [[.tier], [.counter_party], [.legal_entity],
   [.legal_entity, .counter_party], [.counter_party, .tier],
   [.tier, .legal_entity],
   [.legal_entity, .counter_party, .tier]]

/-- Grouped column of an output row addressed by attribute. -/
def OutRow.cellOf (r : OutRow) : PAttr → Cell
  | .legal_entity => r.legal_entity
  | .counter_party => r.counter_party
  | .tier => r.tier

/-- Dataset-1 rows of the spec's end-to-end example. -/
def exampleA : List SrcA :=
  [⟨"CP1", "LE1", "5", "100", "ARAP"⟩, ⟨"CP1", "LE1", "3", "50", "ACCR"⟩]

/-- Dataset-2 row of the spec's end-to-end example. -/
def exampleB : List SrcB := [⟨"CP1", "T1"⟩]

/-- The merged Beam collection of the end-to-end example. -/
def exampleMerged : List DictRow :=
  (mergedData (exampleA.map SrcA.toDict) (exampleB.map SrcB.toDict)).getD []

/-- Dataset-1 rows of the back-fill example: three records joining to the
single tier Gold. -/
def goldA : List SrcA :=
  [⟨"CP1", "LE1", "5", "100", "ARAP"⟩, ⟨"CP1", "LE2", "3", "50", "ACCR"⟩,
   ⟨"CP1", "LE3", "4", "25", "ARAP"⟩]

/-- Dataset-2 row giving every record the tier Gold. -/
def goldB : List SrcB := [⟨"CP1", "Gold"⟩]

/-- The merged Beam collection of the Gold example. -/
def goldMerged : List DictRow :=
  (mergedData (goldA.map SrcA.toDict) (goldB.map SrcB.toDict)).getD []

/-- A merged Beam collection whose single record's tier value contains the
composite-key separator. -/
def dashMerged : List DictRow :=
  (mergedData ([(⟨"CP1", "LE1", "1", "10", "ARAP"⟩ : SrcA)].map SrcA.toDict)
    ([(⟨"CP1", "A-B"⟩ : SrcB)].map SrcB.toDict)).getD []

/-- Header row of `dataset1.csv`. -/
def headerA : List String := ["counter_party", "legal_entity", "rating", "value", "status"]

/-- Header row of `dataset2.csv`. -/
def headerB : List String := ["counter_party", "tier"]

/-- Dataset-1 file whose second data row has six fields against the
five-field header. -/
def extraFieldFile1 : List (List String) :=
  [headerA, ["CP1", "LE1", "5", "100", "ARAP"], ["CP1", "LE2", "3", "50", "ACCR", "EXTRA"]]

/-- Minimal dataset-2 file matching counter-party CP1. -/
def tierFile2 : List (List String) := [headerB, ["CP1", "T1"]]

/-- Dataset-1 file whose data row has a non-integer rating. -/
def badRatingFile1 : List (List String) := [headerA, ["CP1", "LE1", "xx", "100", "ARAP"]]

/-- Dataset-1 file whose data row has one field against the five-field
header, leaving `rating` bound to `None`. -/
def shortRowFile1 : List (List String) := [headerA, ["CP1"]]

/-- Dataset-1 rows where the second record's counter-party has no dataset-2
match. -/
def unmatchedA : List SrcA :=
  [⟨"CP1", "LE1", "5", "100", "ARAP"⟩, ⟨"CP2", "LE9", "1", "10", "ARAP"⟩]

/-- Typed counterpart of `unmatchedA` for the pandas merge. -/
def unmatchedPA : List PRowA :=
  [⟨"CP1", "LE1", 5, 100, "ARAP"⟩, ⟨"CP2", "LE9", 1, 10, "ARAP"⟩]

/-- Typed dataset-1 rows of the end-to-end example. -/
def examplePA : List PRowA :=
  [⟨"CP1", "LE1", 5, 100, "ARAP"⟩, ⟨"CP1", "LE1", 3, 50, "ACCR"⟩]

/-- Typed dataset-2 row of the end-to-end example. -/
def examplePB : List PRowB := [⟨"CP1", "T1"⟩]

/-- Single typed dataset-1 row for the many-match merge example. -/
def oneRowPA : List PRowA := [⟨"CP1", "LE1", 5, 100, "ARAP"⟩]

/-- Dataset-2 rows with two tiers for one counter-party. -/
def twoTierPB : List PRowB := [⟨"CP1", "T1"⟩, ⟨"CP1", "T2"⟩]

/-- A merged dataset with a negative value on a row whose status is neither
ARAP nor ACCR. -/
def negValueDf : List PJoined := [⟨"CP1", "LE1", 1, -5, "OTHER", "T1"⟩]

/-- A joined record used to witness the composite-key round trip. -/
def roundTripRecord : DictRow :=
  dictSet (SrcA.toDict ⟨"CP1", "LE1", "5", "100", "ARAP"⟩) "tier" (some "Gold")

theorem optMapM_forall₂ {α β : Type} (f : α → Option β) :
    ∀ {l : List α} {l' : List β}, optMapM f l = some l' →
      List.Forall₂ (fun a b => f a = some b) l l' := by
  intro l
  induction l with
  | nil => intro l' h; simp [optMapM] at h; simp [← h]
  | cons a t ih =>
    intro l' h
    simp only [optMapM] at h
    cases hfa : f a with
    | none => rw [hfa] at h; simp at h
    | some b =>
      rw [hfa] at h
      cases ht : optMapM f t with
      | none => simp [ht] at h
      | some bs =>
        simp [ht] at h
        exact h ▸ List.Forall₂.cons hfa (ih ht)

theorem optMapM_length {α β : Type} (f : α → Option β) {l : List α} {l' : List β}
    (h : optMapM f l = some l') : l'.length = l.length :=
  (List.Forall₂.length_eq (optMapM_forall₂ f h)).symm

theorem optMapM_congr {α β : Type} (f : α → Option β) (g : α → β) :
    ∀ (l : List α), (∀ a ∈ l, f a = some (g a)) → optMapM f l = some (l.map g) := by
  intro l
  induction l with
  | nil => intro _; rfl
  | cons a t ih =>
    intro h
    rw [optMapM, h a (List.mem_cons_self a t),
      ih (fun x hx => h x (List.mem_cons_of_mem a hx))]
    rfl

theorem optMapM_map {α β γ : Type} (f : β → Option γ) (g : α → β) (l : List α) :
    optMapM f (l.map g) = optMapM (fun a => f (g a)) l := by
  induction l with
  | nil => rfl
  | cons a t ih => simp only [List.map_cons, optMapM, ih]

theorem length_filter_split {α : Type} (p : α → Bool) (l : List α) :
    (l.filter p).length + (l.filter fun a => !(p a)).length = l.length := by
  induction l with
  | nil => rfl
  | cons a t ih =>
    cases h : p a <;> simp [List.filter_cons, h] <;> omega

theorem valuesAt_filter_ne {κ α : Type} [DecidableEq κ] (l : List (κ × α)) (k k' : κ)
    (h : k' ≠ k) :
    valuesAt (l.filter fun p => !(decide (p.1 = k))) k' = valuesAt l k' := by
  unfold valuesAt
  rw [List.filter_filter]
  congr 1
  apply List.filter_congr
  intro p _
  by_cases hp : p.1 = k'
  · have hnk : ¬ (p.1 = k) := by rw [hp]; exact h
    simp [hp, hnk, h]
  · simp [hp]

theorem sum_valuesAt_length {κ α : Type} [DecidableEq κ] :
    ∀ (ks : List κ) (l : List (κ × α)), ks.Nodup → (∀ p ∈ l, p.1 ∈ ks) →
      (ks.map fun k => (valuesAt l k).length).sum = l.length := by
  intro ks
  induction ks with
  | nil =>
    intro l _ hcov
    cases l with
    | nil => rfl
    | cons p t => exact absurd (hcov p (List.mem_cons_self p t)) (by simp)
  | cons k ks ih =>
    intro l hnd hcov
    have hnd' := (List.nodup_cons.mp hnd).2
    have hk := (List.nodup_cons.mp hnd).1
    have hrest : ∀ k' ∈ ks, (valuesAt l k').length =
        (valuesAt (l.filter fun p => !(decide (p.1 = k))) k').length := by
      intro k' hk'
      rw [valuesAt_filter_ne l k k' (fun he => hk (he ▸ hk'))]
    have hcov' : ∀ p ∈ (l.filter fun p => !(decide (p.1 = k))), p.1 ∈ ks := by
      intro p hp
      have hmem := List.mem_of_mem_filter hp
      have hne : ¬ (p.1 = k) := by
        have := List.of_mem_filter hp
        simpa using this
      cases List.mem_cons.mp (hcov p hmem) with
      | inl he => exact absurd he hne
      | inr hin => exact hin
    calc (((k :: ks).map fun k' => (valuesAt l k').length).sum)
        = (valuesAt l k).length + ((ks.map fun k' => (valuesAt l k').length).sum) := by
          simp
      _ = (valuesAt l k).length +
          ((ks.map fun k' =>
            (valuesAt (l.filter fun p => !(decide (p.1 = k))) k').length).sum) := by
          rw [List.map_congr_left hrest]
      _ = (valuesAt l k).length + (l.filter fun p => !(decide (p.1 = k))).length := by
          rw [ih (l.filter fun p => !(decide (p.1 = k))) hnd' hcov']
      _ = (l.filter fun p => decide (p.1 = k)).length +
          (l.filter fun p => !(decide (p.1 = k))).length := by
          simp [valuesAt]
      _ = l.length := length_filter_split _ l

theorem foldl_max_mem : ∀ (xs : List Int) (x : Int), xs.foldl max x ∈ x :: xs := by
  intro xs
  induction xs with
  | nil => intro x; simp
  | cons y ys ih =>
    intro x
    rw [List.foldl_cons]
    rcases List.mem_cons.mp (ih (max x y)) with h | h
    · rcases max_choice x y with hm | hm
      · rw [h, hm]; exact List.mem_cons_self _ _
      · rw [h, hm]; exact List.mem_cons_of_mem _ (List.mem_cons_self _ _)
    · exact List.mem_cons_of_mem _ (List.mem_cons_of_mem _ h)

theorem le_foldl_max : ∀ (xs : List Int) (x v : Int), v ∈ x :: xs → v ≤ xs.foldl max x := by
  intro xs
  induction xs with
  | nil =>
    intro x v hv
    rw [List.mem_singleton] at hv
    simp [hv]
  | cons y ys ih =>
    intro x v hv
    rw [List.foldl_cons]
    rcases List.mem_cons.mp hv with h | h
    · rw [h]
      exact le_trans (le_max_left x y) (ih (max x y) (max x y) (List.mem_cons_self _ _))
    · rcases List.mem_cons.mp h with h2 | h2
      · rw [h2]
        exact le_trans (le_max_right x y) (ih (max x y) (max x y) (List.mem_cons_self _ _))
      · exact ih (max x y) v (List.mem_cons_of_mem _ h2)

theorem splitOnDashChars_no_dash : ∀ (l : List Char), '-' ∉ l → splitOnDashChars l = [l] := by
  intro l
  induction l with
  | nil => intro _; rfl
  | cons c rest ih =>
    intro h
    have hc : ¬ (c = '-') := fun he => h (he ▸ List.mem_cons_self c rest)
    have hr : '-' ∉ rest := fun hm => h (List.mem_cons_of_mem c hm)
    simp only [splitOnDashChars, if_neg hc, ih hr]

theorem splitOnDashChars_append : ∀ (x t : List Char), '-' ∉ x →
    splitOnDashChars (x ++ '-' :: t) = x :: splitOnDashChars t := by
  intro x
  induction x with
  | nil => intro t _; simp [splitOnDashChars]
  | cons c x' ih =>
    intro t h
    have hc : ¬ (c = '-') := fun he => h (he ▸ List.mem_cons_self _ _)
    have hx : '-' ∉ x' := fun hm => h (List.mem_cons_of_mem c hm)
    rw [List.cons_append]
    simp only [splitOnDashChars, if_neg hc, ih t hx]

theorem splitOnDash_joinDash : ∀ (xs : List (List Char)), xs ≠ [] →
    (∀ x ∈ xs, '-' ∉ x) → splitOnDashChars (joinDashChars xs) = xs := by
  intro xs
  induction xs with
  | nil => intro h; exact absurd rfl h
  | cons x xs ih =>
    intro _ hall
    cases xs with
    | nil =>
      exact splitOnDashChars_no_dash x (hall x (List.mem_cons_self _ _))
    | cons y ys =>
      rw [show joinDashChars (x :: y :: ys) = x ++ '-' :: joinDashChars (y :: ys) from rfl]
      rw [splitOnDashChars_append _ _ (hall x (List.mem_cons_self _ _))]
      rw [ih (by simp) (fun z hz => hall z (List.mem_cons_of_mem _ hz))]

theorem pySplit_pyJoin (xs : List String) (hne : xs ≠ [])
    (h : ∀ x ∈ xs, '-' ∉ x.data) : pySplitDash (pyJoinDash xs) = xs := by
  unfold pySplitDash pyJoinDash
  rw [show (String.mk (joinDashChars (xs.map String.data))).data
      = joinDashChars (xs.map String.data) from rfl]
  rw [splitOnDash_joinDash _ (by simpa using hne)
    (by
      intro x hx
      rcases List.mem_map.mp hx with ⟨s, hs, he⟩
      exact he ▸ h s hs)]
  have hid : ∀ s : String, String.mk s.data = s := fun s => rfl
  rw [List.map_map]
  have hmapid : List.map (String.mk ∘ String.data) xs = List.map id xs :=
    List.map_congr_left (fun s _ => hid s)
  rw [hmapid, List.map_id]

theorem valuesAt_map_pair {α κ β : Type} [DecidableEq κ] (keyf : α → κ) (valf : α → β)
    (l : List α) (k : κ) :
    valuesAt (l.map fun a => (keyf a, valf a)) k
      = (l.filter fun a => keyf a = k).map valf := by
  induction l with
  | nil => rfl
  | cons a t ih =>
    simp only [valuesAt, List.map_cons] at ih ⊢
    by_cases h : keyf a = k
    · rw [List.filter_cons_of_pos (by simpa using h),
        List.filter_cons_of_pos (by simpa using h),
        List.map_cons, List.map_cons]
      exact congrArg (valf a :: ·) ih
    · rw [List.filter_cons_of_neg (by simpa using h),
        List.filter_cons_of_neg (by simpa using h)]
      exact ih

theorem foldl_append_flatten {α β : Type} (f : α → List β) :
    ∀ (l : List α) (acc : List β),
      l.foldl (fun a x => a ++ f x) acc = acc ++ (l.map f).flatten := by
  intro l
  induction l with
  | nil => intro acc; simp
  | cons x t ih =>
    intro acc
    rw [List.foldl_cons, ih, List.map_cons, List.flatten_cons, List.append_assoc]

theorem sumStatus_eq (st : String) :
    ∀ (data : List DictRow) (vs : List Int),
      (∀ x ∈ data, (dgetK x "status").isSome) →
      optMapM valueInt (data.filter fun x => dgetK x "status" = some (some st)) = some vs →
      sumStatus st data = some vs.sum := by
  intro data
  induction data with
  | nil =>
    intro vs _ h
    simp only [List.filter_nil, optMapM, Option.some.injEq] at h
    simp [sumStatus, ← h]
  | cons x xs ih =>
    intro vs hst hv
    obtain ⟨s, hs⟩ := Option.isSome_iff_exists.mp (hst x (List.mem_cons_self x xs))
    simp only [sumStatus, hs]
    by_cases hmatch : s = some st
    · rw [if_pos hmatch]
      have hfx : dgetK x "status" = some (some st) := by rw [hs, hmatch]
      rw [List.filter_cons_of_pos (by simpa using hfx)] at hv
      simp only [optMapM] at hv
      cases hvx : valueInt x with
      | none => rw [hvx] at hv; simp at hv
      | some v =>
        rw [hvx] at hv
        cases hrest : optMapM valueInt
            (xs.filter fun y => dgetK y "status" = some (some st)) with
        | none => rw [hrest] at hv; simp at hv
        | some ws =>
          rw [hrest] at hv
          simp at hv
          subst hv
          rw [ih ws (fun y hy => hst y (List.mem_cons_of_mem x hy)) hrest]
          simp [List.sum_cons]
    · rw [if_neg hmatch]
      have hfx : ¬ (dgetK x "status" = some (some st)) := by
        rw [hs]
        intro hc
        exact hmatch (Option.some.inj hc)
      rw [List.filter_cons_of_neg (by simpa using hfx)] at hv
      exact ih vs (fun y hy => hst y (List.mem_cons_of_mem x hy)) hv

theorem extractAndSum_eq (data : List DictRow) (rs : List Int) (sa sc : Int)
    (hr : optMapM ratingInt data = some rs)
    (hne : rs ≠ [])
    (hsa : sumStatus "ARAP" data = some sa)
    (hsc : sumStatus "ACCR" data = some sc) :
    extractAndSum data =
      some ⟨(rs.tail).foldl max (rs.headI), sa, sc, data.length⟩ := by
  unfold extractAndSum
  rw [hr]
  cases rs with
  | nil => exact absurd rfl hne
  | cons r0 rt => simp [listMax, hsa, hsc]

theorem extractAndSum_total {data : List DictRow} {a : Agg}
    (h : extractAndSum data = some a) : a.total = data.length := by
  unfold extractAndSum at h
  cases h1 : optMapM ratingInt data with
  | none => rw [h1] at h; simp at h
  | some rs =>
    rw [h1] at h
    simp only [Option.bind_eq_bind', Option.some_bind] at h
    cases h2 : listMax rs with
    | none => rw [h2] at h; simp at h
    | some m =>
      rw [h2] at h
      simp only [Option.bind_eq_bind', Option.some_bind] at h
      cases h3 : sumStatus "ARAP" data with
      | none => rw [h3] at h; simp at h
      | some sa =>
        rw [h3] at h
        simp only [Option.bind_eq_bind', Option.some_bind] at h
        cases h4 : sumStatus "ACCR" data with
        | none => rw [h4] at h; simp at h
        | some sc =>
          rw [h4] at h
          simp only [Option.bind_eq_bind', Option.some_bind, Option.some.injEq] at h
          rw [← h]

theorem save_fold_nonempty :
    ∀ (batches : List (List String)) (file : List String), file ≠ [] →
      batches.foldl saveOutputToCsv file = file ++ batches.flatten := by
  intro batches
  induction batches with
  | nil => intro file _; simp
  | cons b bs ih =>
    intro file hf
    rw [List.foldl_cons]
    have h1 : saveOutputToCsv file b = file ++ b := by
      unfold saveOutputToCsv
      rw [if_neg (by simpa using hf)]
      simp
    rw [h1, ih (file ++ b) (fun hc => hf (List.append_eq_nil.mp hc).1),
      List.flatten_cons, List.append_assoc]

theorem sumStatusP_cons (st : String) (r : PJoined) (g : List PJoined) :
    sumStatusP st (r :: g) =
      (if r.status = st then r.value else 0) + sumStatusP st g := by
  unfold sumStatusP
  by_cases h : r.status = st
  · rw [List.filter_cons_of_pos (by simpa using h), List.map_cons, List.sum_cons, if_pos h]
  · rw [List.filter_cons_of_neg (by simpa using h), if_neg h, zero_add]

theorem sumStatusP_pair_le :
    ∀ (g : List PJoined), (∀ r ∈ g, 0 ≤ r.value) →
      sumStatusP "ARAP" g + sumStatusP "ACCR" g ≤ (g.map PJoined.value).sum := by
  intro g
  induction g with
  | nil => intro _; simp [sumStatusP]
  | cons r g ih =>
    intro hpos
    have ihg := ih (fun x hx => hpos x (List.mem_cons_of_mem r hx))
    have hr := hpos r (List.mem_cons_self r g)
    rw [sumStatusP_cons, sumStatusP_cons, List.map_cons, List.sum_cons]
    by_cases ha : r.status = "ARAP"
    · have hc : ¬ (r.status = "ACCR") := by rw [ha]; decide
      rw [if_pos ha, if_neg hc]
      omega
    · by_cases hc : r.status = "ACCR"
      · rw [if_neg ha, if_pos hc]
        omega
      · rw [if_neg ha, if_neg hc]
        omega

theorem sumStatusP_pair_eq :
    ∀ (g : List PJoined), (∀ r ∈ g, r.status = "ARAP" ∨ r.status = "ACCR") →
      sumStatusP "ARAP" g + sumStatusP "ACCR" g = (g.map PJoined.value).sum := by
  intro g
  induction g with
  | nil => intro _; simp [sumStatusP]
  | cons r g ih =>
    intro hall
    have ihg := ih (fun x hx => hall x (List.mem_cons_of_mem r hx))
    rw [sumStatusP_cons, sumStatusP_cons, List.map_cons, List.sum_cons]
    rcases hall r (List.mem_cons_self r g) with ha | hc
    · have hc : ¬ (r.status = "ACCR") := by rw [ha]; decide
      rw [if_pos ha, if_neg hc]
      omega
    · have ha : ¬ (r.status = "ARAP") := by rw [hc]; decide
      rw [if_neg ha, if_pos hc]
      omega

theorem sumStatusP_pair_eq_only :
    ∀ (g : List PJoined), (∀ r ∈ g, 0 < r.value) →
      sumStatusP "ARAP" g + sumStatusP "ACCR" g = (g.map PJoined.value).sum →
      ∀ r ∈ g, r.status = "ARAP" ∨ r.status = "ACCR" := by
  intro g
  induction g with
  | nil => intro _ _ r hr; simp at hr
  | cons r g ih =>
    intro hpos heq x hx
    have hle := sumStatusP_pair_le g
      (fun y hy => le_of_lt (hpos y (List.mem_cons_of_mem r hy)))
    rw [sumStatusP_cons, sumStatusP_cons, List.map_cons, List.sum_cons] at heq
    by_cases ha : r.status = "ARAP"
    · have hc : ¬ (r.status = "ACCR") := by rw [ha]; decide
      rw [if_pos ha, if_neg hc] at heq
      rcases List.mem_cons.mp hx with he | hin
      · rw [he]; exact Or.inl ha
      · exact ih (fun y hy => hpos y (List.mem_cons_of_mem r hy)) (by omega) x hin
    · by_cases hc : r.status = "ACCR"
      · rw [if_neg ha, if_pos hc] at heq
        rcases List.mem_cons.mp hx with he | hin
        · rw [he]; exact Or.inr hc
        · exact ih (fun y hy => hpos y (List.mem_cons_of_mem r hy)) (by omega) x hin
      · rw [if_neg ha, if_neg hc] at heq
        have hrpos := hpos r (List.mem_cons_self r g)
        omega

theorem forall₂_sum_eq {α β : Type} (f : α → Nat) (g : β → Nat) :
    ∀ {l : List α} {l' : List β}, List.Forall₂ (fun a b => g b = f a) l l' →
      (l'.map g).sum = (l.map f).sum := by
  intro l l' h
  induction h with
  | nil => rfl
  | cons hR _ ih => simp only [List.map_cons, List.sum_cons, hR, ih]

/-- C9: `SaveOutputToCsv` appends rows under the fixed six-column header and
writes the header exactly when the file is empty: on an empty file the
result is the header followed by the rows, on a non-empty file the rows are
appended with no second header, and folding any sequence of per-run
invocations from an empty file accumulates one header followed by all rows. -/
theorem c9_save_appends_header_iff_empty :
    (∀ rows : List String, saveOutputToCsv [] rows = headerLine :: rows) ∧
    (∀ (file rows : List String), file ≠ [] →
      saveOutputToCsv file rows = file ++ rows) ∧
    (∀ (b : List String) (bs : List (List String)),
      (b :: bs).foldl saveOutputToCsv [] = headerLine :: (b :: bs).flatten) := by
  refine ⟨fun rows => rfl, fun file rows hf => ?_, fun b bs => ?_⟩
  · unfold saveOutputToCsv
    rw [if_neg (by simpa using hf)]
    simp
  · rw [List.foldl_cons]
    have h1 : saveOutputToCsv [] b = headerLine :: b := rfl
    rw [h1, save_fold_nonempty bs (headerLine :: b) (by simp), List.flatten_cons]
    rfl

/-- Witness for C9: appending to a non-empty file adds the rows and no
header. -/
theorem c9_save_appends_header_iff_empty_witness :
    saveOutputToCsv ["x"] ["y"] = ["x", "y"] :=
  c9_save_appends_header_iff_empty.2.1 ["x"] ["y"] (by decide)

/-- C5 counterexample: on the end-to-end example the pandas pipeline's first
output row is the one produced for GroupKey [legal_entity] — its output is
not the concatenation of the per-GroupKey row lists in the spec's claimed
enumeration order, whose first row would be the [tier] row. -/
theorem c5_counterexample_order :
    pandasMain examplePA examplePB ≠
      (claimedGroupByOrder.map
        (customGroupbyAndAggregate (pandasMerge examplePA examplePB))).flatten ∧
    (pandasMain examplePA examplePB).head? =
      some ⟨Cell.str "LE1", Cell.int 2, Cell.int 2, 5, 100, 50⟩ ∧
    ((claimedGroupByOrder.map
        (customGroupbyAndAggregate (pandasMerge examplePA examplePB))).flatten).head? =
      some ⟨Cell.int 2, Cell.int 2, Cell.str "T1", 5, 100, 50⟩ := by
  refine ⟨?_, ?_, ?_⟩ <;> decide

/-- C5 amended: the pandas output accumulates the per-GroupKey rows in the
pandas solution's own enumeration order [legal_entity], [counter_party],
[tier], [legal_entity, counter_party], [counter_party, tier],
[tier, legal_entity], [legal_entity, counter_party, tier]: every row of an
earlier GroupKey precedes every row of a later one in that order. -/
theorem c5_amended_rows_in_pandas_order (d1 : List PRowA) (d2 : List PRowB) :
    pandasMain d1 d2 =
      (pandasGroupByColumns.map
        (customGroupbyAndAggregate (pandasMerge d1 d2))).flatten := by
  unfold pandasMain
  rw [foldl_append_flatten (customGroupbyAndAggregate (pandasMerge d1 d2))
    pandasGroupByColumns []]
  rfl

/-- C3: on a dataset whose second A-record has counter-party CP2 with no
B-side match, `ReshapeData.process` evaluates `dataset2[0]` on the empty
co-grouped list, so the Beam merge — and the whole run — aborts with
`IndexError` instead of dropping the record; the pandas merge of the same
data drops it and keeps the matched record, as the spec describes. -/
theorem c3_unmatched_record_aborts_beam :
    mergedData (unmatchedA.map SrcA.toDict) (exampleB.map SrcB.toDict) = none ∧
    beamMain [headerA, ["CP1", "LE1", "5", "100", "ARAP"], ["CP2", "LE9", "1", "10", "ARAP"]]
        tierFile2 = none ∧
    pandasMerge unmatchedPA examplePB = [⟨"CP1", "LE1", 5, 100, "ARAP", "T1"⟩] := by
  refine ⟨?_, ?_, ?_⟩ <;> decide

/-- C7 counterexample: a data row with six fields against the five-field
header neither makes loading fail nor aborts the run: the reader absorbs the
extra field, the row joins and aggregates normally (the merged dataset holds
both records), and the whole Beam run completes. -/
theorem c7_counterexample_mismatch_not_fatal :
    ((mergedData (readCSVFile extraFieldFile1) (readCSVFile tierFile2)).map
      List.length) = some 2 ∧
    (beamMain extraFieldFile1 tierFile2).isSome = true := by
  refine ⟨?_, ?_⟩ <;> decide

/-- C7 amended: loading never fails on a field-count mismatch — the reader
yields exactly one record per non-blank data row whatever its field count —
and malformed rows are not skipped: they are either processed silently
(extra fields) or abort the run later at aggregation, as a non-integer
rating does and as a short row whose missing `rating` is read as `None`
does. -/
theorem c7_amended_loader_total_late_failures :
    (∀ (header : List String) (rows : List (List String)),
      (readCSVFile (header :: rows)).length = (rows.filter fun r => !r.isEmpty).length) ∧
    beamMain badRatingFile1 tierFile2 = none ∧
    beamMain shortRowFile1 tierFile2 = none := by
  refine ⟨fun header rows => ?_, by decide, by decide⟩
  unfold readCSVFile
  rw [List.length_map]

/-- C8 counterexample: for the partition of the single merged row with value
−5 and status OTHER — a genuine partition under GroupKey [tier] — the
produced row's conditional sums add to 0, which is strictly greater than the
partition's value sum −5, refuting the claimed inequality. -/
theorem c8_counterexample_negative_value :
    (["T1"], negValueDf) ∈ pandasGroups negValueDf [PAttr.tier] ∧
    (mkOutRow [PAttr.tier] ["T1"] negValueDf).sum_arap +
      (mkOutRow [PAttr.tier] ["T1"] negValueDf).sum_accr = 0 ∧
    (negValueDf.map PJoined.value).sum = -5 ∧
    ¬ ((mkOutRow [PAttr.tier] ["T1"] negValueDf).sum_arap +
        (mkOutRow [PAttr.tier] ["T1"] negValueDf).sum_accr ≤
      (negValueDf.map PJoined.value).sum) := by
  refine ⟨?_, ?_, ?_, ?_⟩ <;> decide

/-- C8 amended: for every partition the grouping produces, when every
member's value is nonnegative the produced row's conditional sums add to at
most the partition's value sum; equality holds whenever every member's
status is ARAP or ACCR; and when every member's value is positive, equality
holds only if every member's status is ARAP or ACCR (a zero or negative
value on a row of another status breaks the unrestricted claim). -/
theorem c8_amended_conditional_sums (df : List PJoined) (gk : List PAttr)
    (k : List String) (g : List PJoined)
    (hmem : (k, g) ∈ pandasGroups df gk) :
    ((∀ r ∈ g, 0 ≤ r.value) →
      (mkOutRow gk k g).sum_arap + (mkOutRow gk k g).sum_accr ≤
        (g.map PJoined.value).sum) ∧
    ((∀ r ∈ g, r.status = "ARAP" ∨ r.status = "ACCR") →
      (mkOutRow gk k g).sum_arap + (mkOutRow gk k g).sum_accr =
        (g.map PJoined.value).sum) ∧
    ((∀ r ∈ g, 0 < r.value) →
      (mkOutRow gk k g).sum_arap + (mkOutRow gk k g).sum_accr =
        (g.map PJoined.value).sum →
      ∀ r ∈ g, r.status = "ARAP" ∨ r.status = "ACCR") := by
  refine ⟨fun hpos => ?_, fun hall => ?_, fun hpos heq => ?_⟩
  · exact sumStatusP_pair_le g hpos
  · exact sumStatusP_pair_eq g hall
  · exact sumStatusP_pair_eq_only g hpos heq

/-- Witness for C8 on the end-to-end example's single partition, whose
members all have status ARAP or ACCR: the conditional sums reach the value
sum. -/
theorem c8_amended_conditional_sums_witness :
    (mkOutRow [PAttr.tier] ["T1"] (pandasMerge examplePA examplePB)).sum_arap +
      (mkOutRow [PAttr.tier] ["T1"] (pandasMerge examplePA examplePB)).sum_accr =
      ((pandasMerge examplePA examplePB).map PJoined.value).sum :=
  (c8_amended_conditional_sums (pandasMerge examplePA examplePB) [PAttr.tier]
    ["T1"] (pandasMerge examplePA examplePB) (by decide)).2.1 (by decide)

/-- C2: whenever a non-empty collection of joined records has all ratings
parsing, all statuses present, and the values of the ARAP and the ACCR
members parsing, `ExtractAndSum` yields the member count as `total`, the
maximum parsed rating as `max_rating`, and the two conditional status sums;
and on the end-to-end example, GroupKey [legal_entity, counter_party, tier]
yields the single partition LE1-CP1-T1 with total 2, max rating 5, ARAP sum
100 and ACCR sum 50. -/
theorem c2_aggregator_fields :
    (∀ (data : List DictRow) (rs vsa vsc : List Int) (a : Agg),
      optMapM ratingInt data = some rs →
      rs ≠ [] →
      (∀ x ∈ data, (dgetK x "status").isSome) →
      optMapM valueInt (data.filter fun x => dgetK x "status" = some (some "ARAP"))
        = some vsa →
      optMapM valueInt (data.filter fun x => dgetK x "status" = some (some "ACCR"))
        = some vsc →
      extractAndSum data = some a →
      a.total = data.length ∧ a.max_rating ∈ rs ∧ (∀ v ∈ rs, v ≤ a.max_rating) ∧
        a.sum_arap = vsa.sum ∧ a.sum_accr = vsc.sum) ∧
    aggregateStage ["legal_entity", "counter_party", "tier"] exampleMerged =
      some [("LE1-CP1-T1", ⟨5, 100, 50, 2⟩)] := by
  constructor
  · intro data rs vsa vsc a hr hne hst hvsa hvsc ha
    have hsa := sumStatus_eq "ARAP" data vsa hst hvsa
    have hsc := sumStatus_eq "ACCR" data vsc hst hvsc
    have heq := extractAndSum_eq data rs vsa.sum vsc.sum hr hne hsa hsc
    rw [ha] at heq
    have ha2 : a = ⟨rs.tail.foldl max rs.headI, vsa.sum, vsc.sum, data.length⟩ :=
      Option.some.inj heq
    cases rs with
    | nil => exact absurd rfl hne
    | cons r0 rt =>
      subst ha2
      refine ⟨rfl, ?_, ?_, rfl, rfl⟩
      · exact foldl_max_mem rt r0
      · intro v hv
        exact le_foldl_max rt r0 v hv
  · decide

/-- Witness for C2: the general aggregation facts instantiated on the
end-to-end example's merged records. -/
theorem c2_aggregator_fields_witness :
    (⟨5, 100, 50, 2⟩ : Agg).total = exampleMerged.length ∧
      (⟨5, 100, 50, 2⟩ : Agg).max_rating ∈ [(5 : Int), 3] ∧
      (∀ v ∈ [(5 : Int), 3], v ≤ (⟨5, 100, 50, 2⟩ : Agg).max_rating) ∧
      (⟨5, 100, 50, 2⟩ : Agg).sum_arap = [(100 : Int)].sum ∧
      (⟨5, 100, 50, 2⟩ : Agg).sum_accr = [(50 : Int)].sum :=
  c2_aggregator_fields.1 exampleMerged [5, 3] [100] [50] ⟨5, 100, 50, 2⟩
    (by decide) (by decide) (by decide) (by decide) (by decide) (by decide)

/-- C6: for every merged dataset and grouping-key list, when the Beam
aggregation stage succeeds the totals of the per-partition aggregates sum to
the number of merged records, because the composite-keyed groups partition
the dataset; the pandas partitions satisfy the same identity
unconditionally. -/
theorem c6_totals_sum_to_record_count :
    (∀ (gk : List String) (merged : List DictRow) (aggs : List (String × Agg)),
      aggregateStage gk merged = some aggs →
      (aggs.map fun p => p.2.total).sum = merged.length) ∧
    (∀ (df : List PJoined) (gk : List PAttr),
      ((pandasGroups df gk).map fun p => p.2.length).sum = df.length) := by
  constructor
  · intro gk merged aggs h
    unfold aggregateStage at h
    cases h1 : optMapM (fun e => (compositeKey gk e).map fun k => (k, e)) merged with
    | none => rw [h1] at h; simp at h
    | some keyed =>
      rw [h1] at h
      simp only [Option.bind_eq_bind', Option.some_bind] at h
      have hf2 := optMapM_forall₂ _ h
      have hsum : (aggs.map fun p => p.2.total).sum =
          ((groupPairs keyed).map fun p => p.2.length).sum := by
        apply forall₂_sum_eq
        apply List.Forall₂.imp ?_ hf2
        intro gp q hq
        cases he : extractAndSum gp.2 with
        | none => rw [he] at hq; simp at hq
        | some a0 =>
          rw [he] at hq
          simp only [Option.map_some'] at hq
          rw [← Option.some.inj hq]
          exact extractAndSum_total he
      rw [hsum]
      have hlen := optMapM_length _ h1
      rw [← hlen]
      unfold groupPairs
      rw [List.map_map]
      exact sum_valuesAt_length (keyed.map Prod.fst).dedup keyed
        (List.nodup_dedup _)
        (fun p hp => List.mem_dedup.mpr (List.mem_map_of_mem Prod.fst hp))
  · intro df gk
    unfold pandasGroups
    rw [List.map_map]
    have hva : ∀ k, (df.filter fun r => keyOf gk r = k).length =
        (valuesAt (df.map fun r => (keyOf gk r, r)) k).length := by
      intro k
      have h0 : valuesAt (df.map fun r => (keyOf gk r, r)) k =
          (df.filter fun r => keyOf gk r = k).map id :=
        valuesAt_map_pair (fun r => keyOf gk r) id df k
      rw [h0, List.length_map]
    calc ((df.map (keyOf gk)).dedup.map
            fun k => (df.filter fun r => keyOf gk r = k).length).sum
        = ((df.map (keyOf gk)).dedup.map
            fun k => (valuesAt (df.map fun r => (keyOf gk r, r)) k).length).sum := by
          rw [List.map_congr_left (fun k _ => hva k)]
      _ = (df.map fun r => (keyOf gk r, r)).length := by
          apply sum_valuesAt_length
          · exact List.nodup_dedup _
          · intro p hp
            apply List.mem_dedup.mpr
            rcases List.mem_map.mp hp with ⟨r, hr, he⟩
            rw [← he]
            exact List.mem_map_of_mem (keyOf gk) hr
      _ = df.length := List.length_map _ _

/-- Witness for C6 at the end-to-end example's aggregation. -/
theorem c6_totals_sum_to_record_count_witness :
    ([("LE1-CP1-T1", (⟨5, 100, 50, 2⟩ : Agg))].map fun p => p.2.total).sum =
      exampleMerged.length :=
  c6_totals_sum_to_record_count.1 ["legal_entity", "counter_party", "tier"]
    exampleMerged [("LE1-CP1-T1", ⟨5, 100, 50, 2⟩)] (by decide)

theorem lookupFirst_zip_self {α β : Type} [DecidableEq α] (f : α → β) :
    ∀ (gk : List α) (a : α), a ∈ gk →
      lookupFirst (gk.zip (gk.map f)) a = some (f a) := by
  intro gk
  induction gk with
  | nil => intro a ha; simp at ha
  | cons b t ih =>
    intro a ha
    rw [List.map_cons, List.zip_cons_cons, lookupFirst]
    by_cases he : b = a
    · rw [if_pos he, he]
    · rw [if_neg he]
      rcases List.mem_cons.mp ha with h | h
      · exact absurd h.symm he
      · exact ih a h

theorem lookupFirst_zip_not_mem {α β : Type} [DecidableEq α] :
    ∀ (gk : List α) (vals : List β) (a : α), a ∉ gk →
      lookupFirst (gk.zip vals) a = none := by
  intro gk
  induction gk with
  | nil => intro vals a _; rfl
  | cons b t ih =>
    intro vals a ha
    cases vals with
    | nil => rfl
    | cons v vs =>
      rw [List.zip_cons_cons, lookupFirst]
      rw [if_neg (fun he : b = a => ha (by rw [← he]; exact List.mem_cons_self b t))]
      exact ih vs a (fun h => ha (List.mem_cons_of_mem b h))

/-- C1 counterexample: a single joined record whose tier value is "A-B",
grouped under GroupKey [tier], produces an output row whose tier column is
the first component "A" of the split composite key, not the partition's own
tier value "A-B". -/
theorem c1_counterexample_dash_value :
    (dashMerged.head?.map fun r => dget r "tier") = some (some "A-B") ∧
    (runGroupKey ["tier"] dashMerged).map
        (fun l => l.map fun d => lookupLast d "tier") =
      some [some (Cell.str "A")] := by
  refine ⟨?_, ?_⟩ <;> decide

/-- C1 amended: the back-fill rule holds unconditionally in the pandas
implementation — each produced row binds every GroupKey attribute to the
partition's own value of that attribute and every other grouped column to
the member count — while in the Beam implementation the grouped columns come
from splitting the composite key and agree with the partition values only
when those values are dash-free; on the Gold example (three joined records
sharing tier "Gold", GroupKey [tier]) the Beam row has legal_entity 3,
counter_party 3 and tier "Gold". -/
theorem c1_amended_backfill :
    (∀ (df : List PJoined) (gk : List PAttr) (k : List String) (g : List PJoined),
      (k, g) ∈ pandasGroups df gk →
      ∀ r ∈ g, ∀ a : PAttr,
        (a ∈ gk → (mkOutRow gk k g).cellOf a = Cell.str (r.get a)) ∧
        (a ∉ gk → (mkOutRow gk k g).cellOf a = Cell.int (g.length : Int))) ∧
    (runGroupKey ["tier"] goldMerged).map
        (fun l => l.map fun d =>
          (lookupLast d "legal_entity", lookupLast d "counter_party",
           lookupLast d "tier")) =
      some [(some (Cell.int 3), some (Cell.int 3), some (Cell.str "Gold"))] := by
  constructor
  · intro df gk k g hmem r hr a
    obtain ⟨k0, hk0, heq⟩ := List.mem_map.mp hmem
    rw [Prod.mk.injEq] at heq
    obtain ⟨hk1, hk2⟩ := heq
    subst hk1
    subst hk2
    have hkey : keyOf gk r = k0 := by
      have h1 := List.mem_filter.mp hr
      simpa using h1.2
    have hcell : ∀ b : PAttr,
        (mkOutRow gk k0 (df.filter fun r2 => keyOf gk r2 = k0)).cellOf b =
          pcell gk k0 ((df.filter fun r2 => keyOf gk r2 = k0).length : Int) b := by
      intro b
      cases b <;> rfl
    constructor
    · intro hin
      rw [hcell a]
      unfold pcell
      have hlook : lookupFirst (gk.zip k0) a = some (r.get a) := by
        rw [← hkey]
        exact lookupFirst_zip_self (fun x => r.get x) gk a hin
      rw [hlook]
    · intro hout
      rw [hcell a]
      unfold pcell
      rw [lookupFirst_zip_not_mem gk k0 a hout]
  · decide

/-- Witness for C1 on the end-to-end example under GroupKey [tier]: the tier
column carries the partition value T1 and the absent legal_entity column is
back-filled with the member count 2. -/
theorem c1_amended_backfill_witness :
    (mkOutRow [PAttr.tier] ["T1"] (pandasMerge examplePA examplePB)).cellOf PAttr.tier =
        Cell.str "T1" ∧
      (mkOutRow [PAttr.tier] ["T1"] (pandasMerge examplePA examplePB)).cellOf
          PAttr.legal_entity = Cell.int 2 := by
  constructor
  · exact (c1_amended_backfill.1 (pandasMerge examplePA examplePB) [PAttr.tier] ["T1"]
      (pandasMerge examplePA examplePB) (by decide)
      ⟨"CP1", "LE1", 5, 100, "ARAP", "T1"⟩ (by decide) PAttr.tier).1 (by decide)
  · exact (c1_amended_backfill.1 (pandasMerge examplePA examplePB) [PAttr.tier] ["T1"]
      (pandasMerge examplePA examplePB) (by decide)
      ⟨"CP1", "LE1", 5, 100, "ARAP", "T1"⟩ (by decide) PAttr.legal_entity).2 (by decide)

theorem lookupLast_cons {β : Type} (p : String × β) (l : List (String × β)) (key : String) :
    lookupLast (p :: l) key =
      match lookupLast l key with
      | some v => some v
      | none => if p.1 = key then some p.2 else none := rfl

theorem lookupLast_append {β : Type} (l1 l2 : List (String × β)) (key : String) :
    lookupLast (l1 ++ l2) key =
      match lookupLast l2 key with
      | some v => some v
      | none => lookupLast l1 key := by
  induction l1 with
  | nil =>
    rw [List.nil_append]
    cases h : lookupLast l2 key with
    | none => rfl
    | some v => rfl
  | cons p t ih =>
    rw [List.cons_append, lookupLast_cons, ih, lookupLast_cons]
    cases h : lookupLast l2 key with
    | none => cases h2 : lookupLast t key <;> rfl
    | some v => rfl

theorem lookupLast_backfill (cols : List String) (t : Cell) :
    ∀ (acc : List (String × Cell)) (a : String) (c : Cell),
      lookupLast acc a = some c →
      lookupLast (cols.foldl (fun acc2 col =>
        if (lookupLast acc2 col).isSome then acc2 else acc2 ++ [(col, t)]) acc) a
        = some c := by
  induction cols with
  | nil => intro acc a c h; exact h
  | cons col cols ih =>
    intro acc a c h
    rw [List.foldl_cons]
    by_cases hc : (lookupLast acc col).isSome
    · rw [if_pos hc]; exact ih acc a c h
    · rw [if_neg hc]
      apply ih
      rw [lookupLast_append]
      have hne : ¬ (col = a) := by
        intro he
        rw [he, h] at hc
        exact hc rfl
      rw [show lookupLast [(col, t)] a = none from by
        rw [lookupLast_cons, if_neg hne]
        rfl]
      exact h

theorem lookupLast_assigned_not_mem :
    ∀ (gk : List String) (vals : List String) (a : String), a ∉ gk →
      lookupLast ((gk.zip vals).map fun p => (p.1, Cell.str p.2)) a = none := by
  intro gk
  induction gk with
  | nil => intro vals a _; rfl
  | cons key t ih =>
    intro vals a ha
    cases vals with
    | nil => rfl
    | cons v vs =>
      rw [List.zip_cons_cons, List.map_cons, lookupLast_cons]
      rw [ih vs a (fun h => ha (List.mem_cons_of_mem key h))]
      rw [if_neg (fun he : key = a => ha (by rw [← he]; exact List.mem_cons_self key t))]

theorem lookupLast_assigned_mem (f : String → Option String) (v : String) (a : String)
    (hfa : f a = some v) :
    ∀ (gk vals : List String),
      List.Forall₂ (fun key val => f key = some val) gk vals →
      a ∈ gk →
      lookupLast ((gk.zip vals).map fun p => (p.1, Cell.str p.2)) a
        = some (Cell.str v) := by
  intro gk
  induction gk with
  | nil => intro vals _ ha; simp at ha
  | cons key t ih =>
    intro vals h ha
    cases vals with
    | nil => cases h
    | cons val vs =>
      have hR : f key = some val := (List.forall₂_cons.mp h).1
      have hrest := (List.forall₂_cons.mp h).2
      rw [List.zip_cons_cons, List.map_cons, lookupLast_cons]
      by_cases hin : a ∈ t
      · rw [ih vs hrest hin]
      · rw [lookupLast_assigned_not_mem t vs a hin]
        rcases List.mem_cons.mp ha with he | hin2
        · have hke : key = a := he.symm
          rw [if_pos hke]
          have hvv : val = v := by
            rw [hke] at hR
            rw [hfa] at hR
            exact (Option.some.inj hR).symm
          rw [hvv]
        · exact absurd hin2 hin

/-- C10: the Beam composite key is the dash-join of the element's values at
the grouping keys, and splitting it on the dash recovers exactly those
values whenever none of them contains a dash; under that precondition the
prepared output row binds every grouping column to the element's own
attribute value. -/
theorem c10_composite_key_roundtrip (gk : List String) (e : DictRow)
    (vals : List String) (agg : Agg)
    (hne : gk ≠ [])
    (hv : optMapM (dget e) gk = some vals)
    (hnd : ∀ v ∈ vals, '-' ∉ v.data) :
    compositeKey gk e = some (pyJoinDash vals) ∧
    pySplitDash (pyJoinDash vals) = vals ∧
    ∀ d, prepareOutputData gk (pyJoinDash vals) agg = some d →
      ∀ a v, a ∈ gk → a ∈ aggrColumns → dget e a = some v →
        lookupLast d a = some (Cell.str v) := by
  have hlen : vals.length = gk.length := optMapM_length _ hv
  have hvne : vals ≠ [] := by
    intro h0
    rw [h0] at hlen
    exact hne (List.length_eq_zero.mp hlen.symm)
  have hsplit : pySplitDash (pyJoinDash vals) = vals := pySplit_pyJoin vals hvne hnd
  refine ⟨?_, hsplit, ?_⟩
  · unfold compositeKey
    rw [hv]
    rfl
  · intro d hd a v hin hcols hget
    simp only [prepareOutputData] at hd
    rw [hsplit] at hd
    rw [if_pos (le_of_eq hlen.symm)] at hd
    have hd2 : d = (aggrColumns.foldl
        (fun acc c =>
          if (lookupLast acc c).isSome then acc
          else acc ++ [(c, Cell.int (agg.total : Int))])
        ((gk.zip vals).map fun p => (p.1, Cell.str p.2))) ++
        [("max(rating by counterparty)", Cell.int agg.max_rating),
         ("sum(value where status=ARAP)", Cell.int agg.sum_arap),
         ("sum(value where status=ACCR)", Cell.int agg.sum_accr)] :=
      (Option.some.inj hd).symm
    rw [hd2, lookupLast_append]
    have htriple : lookupLast
        [("max(rating by counterparty)", Cell.int agg.max_rating),
         ("sum(value where status=ARAP)", Cell.int agg.sum_arap),
         ("sum(value where status=ACCR)", Cell.int agg.sum_accr)] a = none := by
      have hc2 : a = "legal_entity" ∨ a = "counter_party" ∨ a = "tier" := by
        simpa [aggrColumns] using hcols
      rcases hc2 with h1 | h1 | h1 <;> rw [h1] <;> rfl
    rw [htriple]
    exact lookupLast_backfill aggrColumns (Cell.int (agg.total : Int))
      ((gk.zip vals).map fun p => (p.1, Cell.str p.2)) a (Cell.str v)
      (lookupLast_assigned_mem (dget e) v a hget gk vals (optMapM_forall₂ _ hv) hin)

/-- Witness for C10: the composite key of the Gold record under GroupKey
[tier] is the dash-join of its single grouping value. -/
theorem c10_composite_key_roundtrip_witness :
    compositeKey ["tier"] roundTripRecord = some (pyJoinDash ["Gold"]) :=
  (c10_composite_key_roundtrip ["tier"] roundTripRecord ["Gold"] ⟨5, 125, 50, 3⟩
    (by decide) (by decide) (by decide)).1

theorem forall₂_mem_right {α β : Type} {R : α → β → Prop} :
    ∀ {l : List α} {l' : List β}, List.Forall₂ R l l' → ∀ y ∈ l', ∃ x ∈ l, R x y := by
  intro l l' h
  induction h with
  | nil => intro y hy; simp at hy
  | cons hR hrest ih =>
    intro y hy
    rcases List.mem_cons.mp hy with he | hin
    · exact ⟨_, List.mem_cons_self _ _, by rw [he]; exact hR⟩
    · obtain ⟨x, hx, hRx⟩ := ih y hin
      exact ⟨x, List.mem_cons_of_mem _ hx, hRx⟩

theorem mapToKV_toDictA (as : List SrcA) :
    mapToKV (as.map SrcA.toDict) =
      some (as.map fun a => (some a.counter_party, SrcA.toDict a)) := by
  unfold mapToKV
  rw [optMapM_map]
  exact optMapM_congr _ _ as (fun a _ => rfl)

theorem mapToKV_toDictB (bs : List SrcB) :
    mapToKV (bs.map SrcB.toDict) =
      some (bs.map fun b => (some b.counter_party, SrcB.toDict b)) := by
  unfold mapToKV
  rw [optMapM_map]
  exact optMapM_congr _ _ bs (fun b _ => rfl)

theorem reshape_key_characterization (as : List SrcA) (bs : List SrcB)
    (hmatch : ∀ a ∈ as, ∃ b ∈ bs, b.counter_party = a.counter_party)
    (k : Option String) (out : List DictRow)
    (hout : reshapeGroup
        ((as.filter fun a => some a.counter_party = k).map SrcA.toDict)
        ((bs.filter fun b => some b.counter_party = k).map SrcB.toDict) = some out) :
    out.length = (as.filter fun a => some a.counter_party = k).length ∧
    ∀ x ∈ out, ∃ a ∈ as, ∃ b : SrcB,
      (bs.filter fun b2 => b2.counter_party = a.counter_party).head? = some b ∧
      x = dictSet a.toDict "tier" (some b.tier) := by
  cases hfa : as.filter (fun a => some a.counter_party = k) with
  | nil =>
    rw [hfa] at hout
    have hempty : out = [] := (Option.some.inj hout).symm
    rw [hempty]
    exact ⟨rfl, by intro x hx; simp at hx⟩
  | cons a0 arest =>
    rw [hfa] at hout
    have ha0 : a0 ∈ as.filter fun a => some a.counter_party = k := by
      rw [hfa]
      exact List.mem_cons_self _ _
    have ha0as : a0 ∈ as := (List.mem_filter.mp ha0).1
    have ha0k : some a0.counter_party = k := by
      simpa using (List.mem_filter.mp ha0).2
    obtain ⟨b1, hb1bs, hb1cp⟩ := hmatch a0 ha0as
    have hb1 : b1 ∈ bs.filter fun b => some b.counter_party = k := by
      rw [List.mem_filter]
      refine ⟨hb1bs, ?_⟩
      simp only [decide_eq_true_eq]
      rw [← ha0k, hb1cp]
    cases hfb : bs.filter (fun b => some b.counter_party = k) with
    | nil => rw [hfb] at hb1; simp at hb1
    | cons b0 brest =>
      rw [hfb] at hout
      have hred : reshapeGroup (SrcA.toDict a0 :: arest.map SrcA.toDict)
          (SrcB.toDict b0 :: brest.map SrcB.toDict) =
          some ((SrcA.toDict a0 :: arest.map SrcA.toDict).map
            fun e => dictSet e "tier" (some b0.tier)) := rfl
      rw [List.map_cons, List.map_cons, hred] at hout
      have hout2 := (Option.some.inj hout).symm
      constructor
      · rw [hout2]
        simp
      · intro x hx
        rw [hout2] at hx
        rw [← List.map_cons] at hx
        obtain ⟨e, he, hex⟩ := List.mem_map.mp hx
        obtain ⟨a, ha, hae⟩ := List.mem_map.mp (by rw [← hfa] at he; exact he)
        refine ⟨a, (List.mem_filter.mp ha).1, b0, ?_, ?_⟩
        · have hak : some a.counter_party = k := by
            simpa using (List.mem_filter.mp ha).2
          have hfilters : bs.filter (fun b2 => b2.counter_party = a.counter_party)
              = bs.filter fun b => some b.counter_party = k := by
            apply List.filter_congr
            intro b _
            rw [decide_eq_decide, ← hak]
            constructor
            · intro h2; rw [h2]
            · intro h2; exact Option.some.inj h2
          rw [hfilters, hfb]
          rfl
        · rw [← hex, ← hae]

/-- C4 counterexample: with two dataset-2 rows sharing counter-party CP1
(tiers T1 and T2), the pandas merge of a single A-record yields two joined
rows — one per matching B-record — not exactly one row carrying the first
tier. -/
theorem c4_counterexample_many_match_merge :
    pandasMerge oneRowPA twoTierPB =
      [⟨"CP1", "LE1", 5, 100, "ARAP", "T1"⟩, ⟨"CP1", "LE1", 5, 100, "ARAP", "T2"⟩] ∧
    (pandasMerge oneRowPA twoTierPB).length ≠ oneRowPA.length := by
  refine ⟨?_, ?_⟩ <;> decide

/-- C4 amended: in the Beam implementation, when every A-record has a
matching B-record the merge yields exactly as many joined records as
A-records, and every joined record is a copy of an A-record carrying the
tier of the FIRST matching B-record; the pandas merge instead yields one
joined row per matching (A, B) pair. -/
theorem c4_amended_first_match_join :
    (∀ (as : List SrcA) (bs : List SrcB) (m : List DictRow),
      (∀ a ∈ as, ∃ b ∈ bs, b.counter_party = a.counter_party) →
      mergedData (as.map SrcA.toDict) (bs.map SrcB.toDict) = some m →
      m.length = as.length ∧
      ∀ x ∈ m, ∃ a ∈ as, ∃ b : SrcB,
        (bs.filter fun b2 => b2.counter_party = a.counter_party).head? = some b ∧
        x = dictSet a.toDict "tier" (some b.tier)) ∧
    (∀ (d1 : List PRowA) (d2 : List PRowB),
      (pandasMerge d1 d2).length =
        (d1.map fun a =>
          (d2.filter fun b => b.counter_party = a.counter_party).length).sum) := by
  constructor
  · intro as bs m hmatch hm
    unfold mergedData at hm
    rw [mapToKV_toDictA, mapToKV_toDictB] at hm
    simp only [Option.bind_eq_bind', Option.some_bind] at hm
    cases hop : optMapM (fun g => reshapeGroup g.2.1 g.2.2)
        (coGroup (as.map fun a => (some a.counter_party, SrcA.toDict a))
          (bs.map fun b => (some b.counter_party, SrcB.toDict b))) with
    | none => rw [hop] at hm; simp at hm
    | some parts =>
      rw [hop] at hm
      simp only [Option.bind_eq_bind', Option.some_bind, Option.some.injEq] at hm
      have hf2 := optMapM_forall₂ _ hop
      unfold coGroup at hf2
      rw [List.forall₂_map_left_iff] at hf2
      have hkeys : ∀ (k : Option String) (out : List DictRow),
          reshapeGroup
            (valuesAt (as.map fun a => (some a.counter_party, SrcA.toDict a)) k)
            (valuesAt (bs.map fun b => (some b.counter_party, SrcB.toDict b)) k)
            = some out →
          out.length = (as.filter fun a => some a.counter_party = k).length ∧
          ∀ x ∈ out, ∃ a ∈ as, ∃ b : SrcB,
            (bs.filter fun b2 => b2.counter_party = a.counter_party).head? = some b ∧
            x = dictSet a.toDict "tier" (some b.tier) := by
        intro k out hout
        have hva1 : valuesAt (as.map fun a => (some a.counter_party, SrcA.toDict a)) k
            = (as.filter fun a => some a.counter_party = k).map SrcA.toDict :=
          valuesAt_map_pair (fun a => some a.counter_party) SrcA.toDict as k
        have hva2 : valuesAt (bs.map fun b => (some b.counter_party, SrcB.toDict b)) k
            = (bs.filter fun b => some b.counter_party = k).map SrcB.toDict :=
          valuesAt_map_pair (fun b => some b.counter_party) SrcB.toDict bs k
        rw [hva1, hva2] at hout
        exact reshape_key_characterization as bs hmatch k out hout
      have hf3 : List.Forall₂ (fun (k : Option String) (out : List DictRow) =>
          out.length = (as.filter fun a => some a.counter_party = k).length ∧
          ∀ x ∈ out, ∃ a ∈ as, ∃ b : SrcB,
            (bs.filter fun b2 => b2.counter_party = a.counter_party).head? = some b ∧
            x = dictSet a.toDict "tier" (some b.tier))
          (((as.map fun a => (some a.counter_party, SrcA.toDict a)).map Prod.fst ++
            (bs.map fun b => (some b.counter_party, SrcB.toDict b)).map Prod.fst).dedup)
          parts :=
        List.Forall₂.imp (fun k out h => hkeys k out h) hf2
      constructor
      · rw [← hm, List.length_flatten]
        have hsum := forall₂_sum_eq
          (fun k => (as.filter fun a => some a.counter_party = k).length)
          List.length (List.Forall₂.imp (fun k out h => h.1) hf3)
        rw [hsum]
        have hva : ∀ k : Option String,
            (as.filter fun a => some a.counter_party = k).length =
            (valuesAt (as.map fun a => (some a.counter_party, a)) k).length := by
          intro k
          have h0 : valuesAt (as.map fun a => (some a.counter_party, a)) k =
              (as.filter fun a => some a.counter_party = k).map id :=
            valuesAt_map_pair (fun a => some a.counter_party) id as k
          rw [h0, List.length_map]
        rw [List.map_congr_left fun k _ => hva k]
        have hcount := sum_valuesAt_length
          (((as.map fun a => (some a.counter_party, SrcA.toDict a)).map Prod.fst ++
            (bs.map fun b => (some b.counter_party, SrcB.toDict b)).map Prod.fst).dedup)
          (as.map fun a => (some a.counter_party, a))
          (List.nodup_dedup _) ?_
        · rw [hcount, List.length_map]
        · intro p hp
          apply List.mem_dedup.mpr
          apply List.mem_append_left
          obtain ⟨a, ha, hpa⟩ := List.mem_map.mp hp
          rw [List.map_map]
          apply List.mem_map.mpr
          exact ⟨a, ha, by rw [← hpa]; rfl⟩
      · intro x hx
        rw [← hm] at hx
        obtain ⟨part, hpart, hxp⟩ := List.mem_flatten.mp hx
        obtain ⟨k, _, hR⟩ := forall₂_mem_right hf3 part hpart
        exact hR.2 x hxp
  · intro d1 d2
    induction d1 with
    | nil => rfl
    | cons a t ih =>
      unfold pandasMerge at ih ⊢
      rw [List.flatMap_cons, List.length_append, List.length_map, List.map_cons,
        List.sum_cons, ih]

/-- Witness for C4 on the end-to-end example: two matched A-records produce
exactly two joined records. -/
theorem c4_amended_first_match_join_witness :
    exampleMerged.length = exampleA.length :=
  (c4_amended_first_match_join.1 exampleA exampleB exampleMerged
    (by decide) (by decide)).1

end HT
